import Mathlib

/-!
Shallow embedding of the standard-works word-count program
(`data_processor.py` and `app.py`) and proofs of the specification claims.

Python strings are modelled as Lean `String` (a packed `List Char`);
Python `dict` / `collections.Counter` are modelled as association lists
that update the first occurrence of a key, exactly like a dict binding;
the NLTK lemmatizer is an external black box, modelled by an abstract
per-token function together with the availability / failure states the
source distinguishes.
-/

namespace StandardWorks

/-! ## String helpers (models of the Python string methods used) -/

/-- Model of Python `str.lower()` restricted to the basic latin range,
matching `Char.toLower`. -/
def pyLower (s : String) : String :=
  String.mk (s.data.map Char.toLower)

/-- Model of Python `str.strip()`: drop whitespace from both ends. -/
def pyStrip (s : String) : String :=
  String.mk (((s.data.dropWhile Char.isWhitespace).reverse.dropWhile Char.isWhitespace).reverse)

/-- The character class kept by the regex `[^a-z\s']` in
`clean_and_tokenize_text`: lowercase letters, whitespace, apostrophe. -/
def isKeptChar (c : Char) : Bool :=
  (decide ('a' ≤ c) && decide (c ≤ 'z')) || c.isWhitespace || c = '\''

/-- A character that may appear inside a produced token:
a lowercase letter or an apostrophe. -/
def isTokenChar (c : Char) : Bool :=
  (decide ('a' ≤ c) && decide (c ≤ 'z')) || c = '\''

/-- Worker for `splitWS`: `acc` holds the current (reversed) token. -/
def splitWSAux : List Char → List Char → List String
  | [], acc => if acc.isEmpty then [] else [String.mk acc.reverse]
  | c :: cs, acc =>
    if c.isWhitespace then
      if acc.isEmpty then splitWSAux cs [] else String.mk acc.reverse :: splitWSAux cs []
    else
      splitWSAux cs (c :: acc)

/-- Model of Python `str.split()` (no argument): split on whitespace runs,
discarding empty pieces. -/
def splitWS (cs : List Char) : List String :=
  splitWSAux cs []

/-! ## `data_processor.clean_and_tokenize_text` -/

/-- Embedding of `clean_and_tokenize_text`:
lowercase, delete every character outside `[a-z\s']`, split on whitespace. -/
def clean_and_tokenize_text (text : String) : List String :=
  splitWS ((text.data.map Char.toLower).filter isKeptChar)

/-- Spec-side formulation of "split on whitespace runs", used only to
restate the tokenizer contract independently: chop the list at every
separator (keeping empty chunks), then drop the empty chunks. -/
def chunksBy (p : Char → Bool) : List Char → List (List Char)
  | [] => [[]]
  | c :: cs => if p c then [] :: chunksBy p cs else (chunksBy p cs).modifyHead (c :: ·)

/-- The tokenizer as the spec words it (§4.1): lowercase the text; remove
every character that is not a lowercase letter, whitespace, or apostrophe;
split on whitespace runs. -/
def spec_tokenize (text : String) : List String :=
  (((chunksBy Char.isWhitespace
      ((pyLower text).data.filter isKeptChar)).filter (fun l => !l.isEmpty)).map
    fun l => String.mk l)

/-! ## `data_processor.lemmatize_tokens` -/

/-- State of the external NLTK lemmatization service as the source
distinguishes it: unavailable (import or resource setup failed), available
with some per-token dictionary normalization, or raising on the batch. -/
inductive Lemmatizer where
  | unavailable : Lemmatizer
  | available : (String → String) → Lemmatizer
  | failing : Lemmatizer

/-- Embedding of `lemmatize_tokens`: map the lemmatizer over the tokens when
NLTK is available; return the input tokens unchanged when it is not
available or when lemmatization of the batch fails. -/
def lemmatize_tokens : Lemmatizer → List String → List String
  | Lemmatizer.available f, tokens => tokens.map f
  | Lemmatizer.unavailable, tokens => tokens
  | Lemmatizer.failing, tokens => tokens

/-- The effective per-token normalization realized by `lemmatize_tokens`. -/
def applyLemmatizer : Lemmatizer → String → String
  | Lemmatizer.available f, t => f t
  | Lemmatizer.unavailable, t => t
  | Lemmatizer.failing, t => t

/-! ## Dictionaries

Python `dict` (and `collections.Counter`, a dict of counts) modelled as an
association list; an update rewrites the first binding of the key, an
absent key is appended at the end, exactly the dict insertion-order
behavior. -/

/-- Lookup in a dict: the value of the first binding of `k`. -/
def lookupAssoc {α : Type} (k : String) : List (String × α) → Option α
  | [] => none
  | (k', v) :: rest => if k' = k then some v else lookupAssoc k rest

/-- Write access `m[k] = f(m.get(k, d))` on a dict: rewrite the first binding of `k`,
or append `(k, f d)` when `k` is absent (the `defaultdict` behavior with
default `d`). -/
def updateAssoc {α : Type} (d : α) (f : α → α) (k : String) :
    List (String × α) → List (String × α)
  | [] => [(k, f d)]
  | (k', v) :: rest =>
    if k' = k then (k', f v) :: rest else (k', v) :: updateAssoc d f k rest

/-- A `collections.Counter` over tokens. -/
abbrev Counter : Type := List (String × Nat)

/-- Read access `counter.get(t, 0)` / `counter[t]` on a counter. -/
def countOf (m : Counter) (t : String) : Nat :=
  (lookupAssoc t m).getD 0

/-- Model of `Counter.update(words)`: add one to the count of each listed word. -/
def counterUpdate (m : Counter) (ws : List String) : Counter :=
  ws.foldl (fun m w => updateAssoc 0 (· + 1) w m) m

/-- Sum of all values of a counter. -/
def sumValues (m : Counter) : Nat :=
  (m.map (fun p => p.2)).sum

/-! ## Aggregator data model (`process_scriptures`) -/

/-- One input verse record; each field is `none` when the key is missing
from the JSON object. -/
structure Verse where
  volume_title : Option String
  book_title : Option String
  scripture_text : Option String
deriving DecidableEq

/-- The fixed allow-list of standard works. -/
def RECOGNIZED_STANDARD_WORKS : List String :=
  ["Old Testament", "New Testament", "Book of Mormon",
   "Doctrine and Covenants", "Pearl of Great Price"]

/-- Per-book aggregate: raw counts, lemmatized counts, total word count. -/
structure BookData where
  word_counts : Counter
  lemmatized_word_counts : Counter
  total_words : Nat
deriving DecidableEq

/-- Per-standard-work aggregate. -/
structure SWData where
  books : List (String × BookData)
  total_words_in_standard_work : Nat
deriving DecidableEq

/-- The snapshot produced by the aggregator. -/
structure Snapshot where
  standard_works : List (String × SWData)
  total_words_overall : Nat
deriving DecidableEq

/-- Zero-initialized book bucket (the inner `defaultdict` default). -/
def emptyBook : BookData :=
  { word_counts := [], lemmatized_word_counts := [], total_words := 0 }

/-- Zero-initialized standard-work bucket. -/
def emptySW : SWData :=
  { books := [], total_words_in_standard_work := 0 }

/-- The initial snapshot before any verse is processed. -/
def emptySnapshot : Snapshot :=
  { standard_works := [], total_words_overall := 0 }

/-- The body of the per-verse loop of `process_scriptures`: skip the verse
when a required field is missing or empty or the volume is not recognized;
otherwise tokenize, lemmatize, and merge into the addressed bucket. -/
def process_verse (lem : Lemmatizer) (s : Snapshot) (v : Verse) : Snapshot :=
  match v.volume_title, v.book_title, v.scripture_text with
  | some vt, some bt, some txt =>
    if vt = "" || bt = "" || txt = "" then s
    else if !(RECOGNIZED_STANDARD_WORKS.contains vt) then s
    else
      let raw_words := clean_and_tokenize_text txt
      let num_words_in_verse := raw_words.length
      let lemmatized_words := lemmatize_tokens lem raw_words
      { standard_works :=
          updateAssoc emptySW
            (fun sw =>
              { books :=
                  updateAssoc emptyBook
                    (fun b =>
                      { word_counts := counterUpdate b.word_counts raw_words
                        lemmatized_word_counts :=
                          counterUpdate b.lemmatized_word_counts lemmatized_words
                        total_words := b.total_words + num_words_in_verse })
                    bt sw.books
                total_words_in_standard_work :=
                  sw.total_words_in_standard_work + num_words_in_verse })
            vt s.standard_works
        total_words_overall := s.total_words_overall + num_words_in_verse }
  | _, _, _ => s

/-- Embedding of the aggregation loop of `process_scriptures`: fold the
per-verse step over the verse sequence, starting from empty counters. -/
def process_scriptures (lem : Lemmatizer) (verses : List Verse) : Snapshot :=
  verses.foldl (process_verse lem) emptySnapshot

/-- The skip condition of the per-verse loop: a required field missing or
empty, or an unrecognized standard-work name. -/
def isSkippedVerse (v : Verse) : Bool :=
  match v.volume_title, v.book_title, v.scripture_text with
  | some vt, some bt, some txt =>
    vt = "" || bt = "" || txt = "" || !(RECOGNIZED_STANDARD_WORKS.contains vt)
  | _, _, _ => true

/-- The contribution of one verse: its standard work, book and raw token
list when it passes the filters, `none` when it is skipped. -/
def verseTokens (v : Verse) : Option (String × String × List String) :=
  match v.volume_title, v.book_title, v.scripture_text with
  | some vt, some bt, some txt =>
    if vt = "" || bt = "" || txt = "" then none
    else if !(RECOGNIZED_STANDARD_WORKS.contains vt) then none
    else some (vt, bt, clean_and_tokenize_text txt)
  | _, _, _ => none

/-- The raw tokens a verse contributes to the bucket `(swn, bn)`. -/
def bookTokensOf (v : Verse) (swn bn : String) : List String :=
  match verseTokens v with
  | some (vt, bt, ws) => if vt = swn && bt = bn then ws else []
  | none => []

/-- Number of raw tokens produced by a verse (0 when skipped). -/
def verseNumTokens (v : Verse) : Nat :=
  match verseTokens v with
  | some (_, _, ws) => ws.length
  | none => 0

/-- Number of raw tokens a verse contributes to standard work `swn`. -/
def swTokensOf (v : Verse) (swn : String) : Nat :=
  match verseTokens v with
  | some (vt, _, ws) => if vt = swn then ws.length else 0
  | none => 0

/-- Total number of raw tokens a verse sequence produces for the verses of
the bucket `(swn, bn)`. -/
def versesBookTokens (verses : List Verse) (swn bn : String) : Nat :=
  (verses.map (fun v => (bookTokensOf v swn bn).length)).sum

/-! ### Read accessors on a snapshot -/

/-- The book bucket addressed by `(swn, bn)`, when present. -/
def Snapshot.bookData (s : Snapshot) (swn bn : String) : Option BookData :=
  (lookupAssoc swn s.standard_works).bind fun sw => lookupAssoc bn sw.books

/-- Field `total_words` of the addressed book, 0 when the bucket is absent. -/
def Snapshot.bookTotal (s : Snapshot) (swn bn : String) : Nat :=
  ((s.bookData swn bn).map (fun b => b.total_words)).getD 0

/-- Raw count of token `t` in the addressed book, 0 when absent. -/
def Snapshot.bookCount (s : Snapshot) (swn bn t : String) : Nat :=
  match s.bookData swn bn with
  | some b => countOf b.word_counts t
  | none => 0

/-- Lemmatized count of token `t` in the addressed book, 0 when absent. -/
def Snapshot.bookLemCount (s : Snapshot) (swn bn t : String) : Nat :=
  match s.bookData swn bn with
  | some b => countOf b.lemmatized_word_counts t
  | none => 0

/-- Field `total_words_in_standard_work` of `swn`, 0 when absent. -/
def Snapshot.swTotal (s : Snapshot) (swn : String) : Nat :=
  ((lookupAssoc swn s.standard_works).map
    (fun sw => sw.total_words_in_standard_work)).getD 0

/-- Sum of the book totals of one standard work. -/
def SWData.booksTotalSum (sw : SWData) : Nat :=
  (sw.books.map (fun p => p.2.total_words)).sum

/-- Sum of the standard-work totals of a snapshot. -/
def Snapshot.swTotalSum (s : Snapshot) : Nat :=
  (s.standard_works.map (fun p => p.2.total_words_in_standard_work)).sum

/-! ## Query engine (`app.get_search_results`)

A row of the result `DataFrame`. The scope columns differ by granularity,
so each is optional; the two display-formatted numbers are carried as the
exact values they format (`per10000` as an exact rational in place of the
float that the `"%.2f"` string is rendered from). -/

structure ResultRow where
  scope : Option String
  standardWork : Option String
  book : Option String
  searchTerm : String
  rawCount : Nat
  per10000 : ℚ
  totalWordsInScope : Nat
deriving DecidableEq

/-- Embedding of `get_search_results`: lowercase and strip the term; an
empty cleaned term gives an empty frame; otherwise branch on the
granularity string, with an empty frame for an unknown granularity. -/
def get_search_results (search_term : String) (data : Snapshot)
    (granularity : String) : List ResultRow :=
  let search_term_cleaned := pyStrip (pyLower search_term)
  if search_term_cleaned = "" then []
  else if granularity = "All Standard Works Combined" then
    let overall_raw_count : Nat :=
      (data.standard_works.map fun sw =>
        (sw.2.books.map fun b => countOf b.2.word_counts search_term_cleaned).sum).sum
    let overall_total_words : Nat := data.total_words_overall
    let normalized_count : ℚ :=
      if overall_total_words > 0 then
        ((overall_raw_count : ℚ) / (overall_total_words : ℚ)) * 10000
      else 0
    [{ scope := some "All Standard Works"
       standardWork := none
       book := none
       searchTerm := search_term_cleaned
       rawCount := overall_raw_count
       per10000 := normalized_count
       totalWordsInScope := overall_total_words }]
  else if granularity = "By Standard Work" then
    data.standard_works.map fun sw =>
      let sw_raw_count : Nat :=
        (sw.2.books.map fun b => countOf b.2.word_counts search_term_cleaned).sum
      let sw_total_words : Nat := sw.2.total_words_in_standard_work
      let normalized_count : ℚ :=
        if sw_total_words > 0 then
          ((sw_raw_count : ℚ) / (sw_total_words : ℚ)) * 10000
        else 0
      { scope := none
        standardWork := some sw.1
        book := none
        searchTerm := search_term_cleaned
        rawCount := sw_raw_count
        per10000 := normalized_count
        totalWordsInScope := sw_total_words }
  else if granularity = "By Book (within each Standard Work)" then
    (data.standard_works.map fun sw =>
      sw.2.books.map fun b =>
        let book_raw_count : Nat := countOf b.2.word_counts search_term_cleaned
        let book_total_words : Nat := b.2.total_words
        let normalized_count : ℚ :=
          if book_total_words > 0 then
            ((book_raw_count : ℚ) / (book_total_words : ℚ)) * 10000
          else 0
        { scope := none
          standardWork := some sw.1
          book := some b.1
          searchTerm := search_term_cleaned
          rawCount := book_raw_count
          per10000 := normalized_count
          totalWordsInScope := book_total_words }).flatten
  else []

/-! ## Lemmas on dictionaries and counters -/

theorem lookupAssoc_updateAssoc_self {α : Type} (d : α) (f : α → α) (k : String)
    (m : List (String × α)) :
    lookupAssoc k (updateAssoc d f k m) = some (f ((lookupAssoc k m).getD d)) := by
  induction m with
  | nil => simp [updateAssoc, lookupAssoc]
  | cons p rest ih =>
    obtain ⟨k', v⟩ := p
    by_cases h : k' = k
    · subst h
      simp [updateAssoc, lookupAssoc]
    · simp [updateAssoc, lookupAssoc, h, ih]

theorem lookupAssoc_updateAssoc_ne {α : Type} (d : α) (f : α → α) {k k' : String}
    (h : k' ≠ k) (m : List (String × α)) :
    lookupAssoc k' (updateAssoc d f k m) = lookupAssoc k' m := by
  induction m with
  | nil => simp [updateAssoc, lookupAssoc, Ne.symm h]
  | cons p rest ih =>
    obtain ⟨k'', v⟩ := p
    by_cases hk : k'' = k
    · subst hk
      simp [updateAssoc, lookupAssoc, Ne.symm h]
    · simp [updateAssoc, lookupAssoc, hk, ih]

theorem map_sum_updateAssoc {α : Type} (d : α) (f : α → α) (k : String)
    (m : List (String × α)) (g : α → Nat) (c : Nat)
    (hf : ∀ x, g (f x) = g x + c) (hd : g d = 0) :
    ((updateAssoc d f k m).map (fun p => g p.2)).sum
      = (m.map (fun p => g p.2)).sum + c := by
  induction m with
  | nil => simp [updateAssoc, hf, hd]
  | cons p rest ih =>
    obtain ⟨k', v⟩ := p
    by_cases h : k' = k
    · subst h
      simp [updateAssoc, hf]
      omega
    · simp [updateAssoc, h, ih]
      omega

theorem mem_updateAssoc {α : Type} {d : α} {f : α → α} {k : String}
    {m : List (String × α)} {p : String × α} (hp : p ∈ updateAssoc d f k m) :
    p ∈ m ∨ p = (k, f ((lookupAssoc k m).getD d)) := by
  induction m with
  | nil =>
    simp [updateAssoc, lookupAssoc] at hp ⊢
    exact hp
  | cons q rest ih =>
    obtain ⟨k', v⟩ := q
    by_cases h : k' = k
    · subst h
      simp [updateAssoc, lookupAssoc] at hp ⊢
      tauto
    · simp [updateAssoc, lookupAssoc, h] at hp ⊢
      rcases hp with hp | hp
      · tauto
      · rcases ih hp with h' | h' <;> tauto

theorem lookupAssoc_mem {α : Type} {k : String} {m : List (String × α)} {v : α}
    (h : lookupAssoc k m = some v) : (k, v) ∈ m := by
  induction m with
  | nil => simp [lookupAssoc] at h
  | cons q rest ih =>
    obtain ⟨k', v'⟩ := q
    by_cases hk : k' = k
    · subst hk
      simp [lookupAssoc] at h
      simp [h]
    · simp [lookupAssoc, hk] at h
      simp [ih h]

theorem countOf_incr (m : Counter) (w t : String) :
    countOf (updateAssoc 0 (· + 1) w m) t
      = countOf m t + (if w = t then 1 else 0) := by
  by_cases h : t = w
  · subst h
    rw [countOf, lookupAssoc_updateAssoc_self]
    cases hm : lookupAssoc t m <;> simp [countOf, hm]
  · rw [countOf, lookupAssoc_updateAssoc_ne _ _ h]
    simp [countOf, Ne.symm h]

theorem countOf_counterUpdate (m : Counter) (ws : List String) (t : String) :
    countOf (counterUpdate m ws) t = countOf m t + ws.count t := by
  induction ws generalizing m with
  | nil => simp [counterUpdate]
  | cons w ws ih =>
    have step : countOf (counterUpdate m (w :: ws)) t
        = countOf (counterUpdate (updateAssoc 0 (· + 1) w m) ws) t := rfl
    rw [step, ih, countOf_incr, List.count_cons]
    by_cases h : t = w
    · subst h
      simp
      omega
    · simp [h, Ne.symm h]

theorem sumValues_incr (m : Counter) (w : String) :
    sumValues (updateAssoc 0 (· + 1) w m) = sumValues m + 1 := by
  exact map_sum_updateAssoc 0 (· + 1) w m (fun n => n) 1 (fun x => rfl) rfl

theorem sumValues_counterUpdate (m : Counter) (ws : List String) :
    sumValues (counterUpdate m ws) = sumValues m + ws.length := by
  induction ws generalizing m with
  | nil => simp [counterUpdate]
  | cons w ws ih =>
    show sumValues (counterUpdate (updateAssoc 0 (· + 1) w m) ws) = _
    rw [ih, sumValues_incr, List.length_cons]
    omega

theorem mem_counterUpdate {m : Counter} {ws : List String} {r : String × Nat}
    (hr : r ∈ counterUpdate m ws) : r ∈ m ∨ r.1 ∈ ws := by
  induction ws generalizing m with
  | nil => exact Or.inl hr
  | cons w ws ih =>
    have hr' : r ∈ counterUpdate (updateAssoc 0 (· + 1) w m) ws := hr
    rcases ih hr' with h | h
    · rcases mem_updateAssoc h with h' | h'
      · exact Or.inl h'
      · right
        rw [h']
        simp
    · simp [h]

/-! ## Lemmas on the tokenizer -/

theorem modifyHead_self {α : Type} (l : List α) :
    l.modifyHead (fun a => a) = l := by
  cases l <;> rfl

theorem splitWSAux_eq_chunks (cs acc : List Char) :
    splitWSAux cs acc
      = (((chunksBy Char.isWhitespace cs).modifyHead
            (fun h => acc.reverse ++ h)).filter (fun l => !l.isEmpty)).map
          (fun l => String.mk l) := by
  induction cs generalizing acc with
  | nil =>
    by_cases h : acc = []
    · subst h
      simp [splitWSAux, chunksBy]
    · have : acc.reverse ≠ [] := by simpa using h
      simp [splitWSAux, chunksBy, h, this]
  | cons c cs ih =>
    by_cases hws : c.isWhitespace
    · by_cases hacc : acc = []
      · subst hacc
        simp [splitWSAux, chunksBy, hws, ih, modifyHead_self]
      · have hrev : acc.reverse ≠ [] := by simpa using hacc
        simp [splitWSAux, chunksBy, hws, hacc, ih, hrev, modifyHead_self]
    · have key : (chunksBy Char.isWhitespace (c :: cs)).modifyHead
            (fun h => acc.reverse ++ h)
          = (chunksBy Char.isWhitespace cs).modifyHead
            (fun h => (c :: acc).reverse ++ h) := by
        rw [chunksBy]
        simp only [hws, Bool.false_eq_true, if_false]
        cases chunksBy Char.isWhitespace cs <;> simp
      rw [splitWSAux]
      simp only [hws, Bool.false_eq_true, if_false]
      rw [ih, key]

theorem clean_and_tokenize_eq_spec (text : String) :
    clean_and_tokenize_text text = spec_tokenize text := by
  rw [clean_and_tokenize_text, spec_tokenize, splitWS, splitWSAux_eq_chunks]
  simp [pyLower, modifyHead_self]

theorem splitWSAux_tokens_good (q : Char → Bool) (cs acc : List Char)
    (hcs : ∀ c ∈ cs, (q c || c.isWhitespace) = true)
    (hacc : ∀ c ∈ acc, (q c && !c.isWhitespace) = true) :
    ∀ t ∈ splitWSAux cs acc,
      t.data ≠ [] ∧ ∀ c ∈ t.data, (q c && !c.isWhitespace) = true := by
  induction cs generalizing acc with
  | nil =>
    intro t ht
    by_cases h : acc = []
    · subst h
      simp [splitWSAux] at ht
    · have : ¬acc.isEmpty := by simpa [List.isEmpty_iff] using h
      simp [splitWSAux, this] at ht
      subst ht
      refine ⟨by simpa using h, ?_⟩
      intro c hc
      exact hacc c (by simpa using hc)
  | cons c cs ih =>
    intro t ht
    have hcs' : ∀ c ∈ cs, (q c || c.isWhitespace) = true :=
      fun c hc => hcs c (List.mem_cons_of_mem _ hc)
    by_cases hws : c.isWhitespace
    · by_cases hacc' : acc = []
      · subst hacc'
        rw [splitWSAux] at ht
        simp only [hws, if_true, List.isEmpty_nil, if_true] at ht
        exact ih [] hcs' (by simp) t ht
      · have : ¬acc.isEmpty := by simpa [List.isEmpty_iff] using hacc'
        rw [splitWSAux] at ht
        simp only [hws, if_true, this, Bool.false_eq_true, if_false,
          List.mem_cons] at ht
        rcases ht with ht | ht
        · subst ht
          refine ⟨by simpa using hacc', ?_⟩
          intro c' hc'
          exact hacc c' (by simpa using hc')
        · exact ih [] hcs' (by simp) t ht
    · rw [splitWSAux] at ht
      simp only [hws, Bool.false_eq_true, if_false] at ht
      have hq : q c = true := by
        have := hcs c (List.mem_cons_self c cs)
        simpa [hws] using this
      refine ih (c :: acc) hcs' ?_ t ht
      intro c' hc'
      rcases List.mem_cons.mp hc' with h | h
      · subst h
        simp [hq, hws]
      · exact hacc c' h

theorem clean_tokens_good (text : String) :
    ∀ t ∈ clean_and_tokenize_text text,
      t ≠ "" ∧ ∀ c ∈ t.data, isTokenChar c = true := by
  intro t ht
  have hcs : ∀ c ∈ (text.data.map Char.toLower).filter isKeptChar,
      (isTokenChar c || c.isWhitespace) = true := by
    intro c hc
    have hk : isKeptChar c = true := (List.mem_filter.mp hc).2
    rw [isKeptChar] at hk
    rw [isTokenChar]
    rcases Bool.or_eq_true_iff.mp hk with hk | hk
    · rcases Bool.or_eq_true_iff.mp hk with hk | hk
      · simp [hk]
      · simp [hk]
    · simp [hk]
  have := splitWSAux_tokens_good isTokenChar _ [] hcs (by simp) t ht
  refine ⟨?_, fun c hc => ?_⟩
  · intro h
    rw [h] at this
    exact this.1 rfl
  · have h := this.2 c hc
    exact (Bool.and_eq_true_iff.mp h).1

/-! ## Lemmas on the aggregator -/

/-- The bucket-merging part of `process_verse`, factored out so the fold
lemmas can speak about one accepted contribution `(vt, bt, ws)`. -/
def addVerse (lem : Lemmatizer) (s : Snapshot) (vt bt : String)
    (ws : List String) : Snapshot :=
  { standard_works :=
      updateAssoc emptySW
        (fun sw =>
          { books :=
              updateAssoc emptyBook
                (fun b =>
                  { word_counts := counterUpdate b.word_counts ws
                    lemmatized_word_counts :=
                      counterUpdate b.lemmatized_word_counts (lemmatize_tokens lem ws)
                    total_words := b.total_words + ws.length })
                bt sw.books
            total_words_in_standard_work :=
              sw.total_words_in_standard_work + ws.length })
        vt s.standard_works
    total_words_overall := s.total_words_overall + ws.length }

theorem process_verse_eq (lem : Lemmatizer) (s : Snapshot) (v : Verse) :
    process_verse lem s v
      = match verseTokens v with
        | some (vt, bt, ws) => addVerse lem s vt bt ws
        | none => s := by
  rcases v with ⟨ovt, obt, otxt⟩
  cases ovt with
  | none => rfl
  | some vt =>
    cases obt with
    | none => rfl
    | some bt =>
      cases otxt with
      | none => rfl
      | some txt =>
        by_cases h1 : vt = "" ∨ bt = "" ∨ txt = ""
        · have hb : (vt = "" || bt = "" || txt = "") = true := by
            rcases h1 with h | h | h <;> simp [h]
          simp [process_verse, verseTokens, hb]
        · push_neg at h1
          have hb : (vt = "" || bt = "" || txt = "") = false := by
            simp [h1.1, h1.2.1, h1.2.2]
          by_cases h2 : vt ∈ RECOGNIZED_STANDARD_WORKS
          · simp [process_verse, verseTokens, hb, h2, addVerse]
          · simp [process_verse, verseTokens, hb, h2]

theorem addVerse_total_words_overall (lem : Lemmatizer) (s : Snapshot)
    (vt bt : String) (ws : List String) :
    (addVerse lem s vt bt ws).total_words_overall
      = s.total_words_overall + ws.length := rfl

theorem addVerse_swTotal (lem : Lemmatizer) (s : Snapshot) (vt bt : String)
    (ws : List String) (swn : String) :
    (addVerse lem s vt bt ws).swTotal swn
      = s.swTotal swn + (if vt = swn then ws.length else 0) := by
  by_cases h : vt = swn
  · subst h
    rw [Snapshot.swTotal, Snapshot.swTotal, addVerse]
    simp only [lookupAssoc_updateAssoc_self]
    cases hm : lookupAssoc vt s.standard_works <;> simp [emptySW]
  · rw [Snapshot.swTotal, Snapshot.swTotal, addVerse]
    simp only
    rw [lookupAssoc_updateAssoc_ne _ _ (fun he => h he.symm)]
    simp [h]

theorem addVerse_bookData_ne_sw (lem : Lemmatizer) (s : Snapshot)
    (vt bt : String) (ws : List String) {swn : String} (bn : String)
    (h : swn ≠ vt) :
    (addVerse lem s vt bt ws).bookData swn bn = s.bookData swn bn := by
  rw [Snapshot.bookData, Snapshot.bookData, addVerse]
  simp only
  rw [lookupAssoc_updateAssoc_ne _ _ h]

theorem addVerse_bookData_ne_book (lem : Lemmatizer) (s : Snapshot)
    (vt bt : String) (ws : List String) {bn : String}
    (h : bn ≠ bt) :
    (addVerse lem s vt bt ws).bookData vt bn = s.bookData vt bn := by
  rw [Snapshot.bookData, Snapshot.bookData, addVerse]
  simp only [lookupAssoc_updateAssoc_self]
  cases hm : lookupAssoc vt s.standard_works with
  | none => simp [emptySW, Option.bind, lookupAssoc, Ne.symm h]
  | some sw => simp [Option.bind, lookupAssoc_updateAssoc_ne _ _ h]

theorem addVerse_bookData_self (lem : Lemmatizer) (s : Snapshot)
    (vt bt : String) (ws : List String) :
    (addVerse lem s vt bt ws).bookData vt bt
      = some
          (let b := ((s.bookData vt bt).getD emptyBook)
           { word_counts := counterUpdate b.word_counts ws
             lemmatized_word_counts :=
               counterUpdate b.lemmatized_word_counts (lemmatize_tokens lem ws)
             total_words := b.total_words + ws.length }) := by
  rw [Snapshot.bookData, Snapshot.bookData, addVerse]
  simp only [lookupAssoc_updateAssoc_self]
  cases hm : lookupAssoc vt s.standard_works with
  | none =>
    simp [emptySW, emptyBook, Option.bind, lookupAssoc_updateAssoc_self, lookupAssoc]
  | some sw =>
    simp [Option.bind, lookupAssoc_updateAssoc_self]

/-- Count of token `t` contributed by a verse sequence to bucket `(swn, bn)`. -/
def versesBookCount (verses : List Verse) (swn bn t : String) : Nat :=
  (verses.map (fun v => (bookTokensOf v swn bn).count t)).sum

/-- Count of token `t` contributed to the lemmatized counter of `(swn, bn)`. -/
def versesBookLemCount (lem : Lemmatizer) (verses : List Verse)
    (swn bn t : String) : Nat :=
  (verses.map (fun v => (lemmatize_tokens lem (bookTokensOf v swn bn)).count t)).sum

theorem bookTotal_eq_getD (s : Snapshot) (swn bn : String) :
    s.bookTotal swn bn = ((s.bookData swn bn).getD emptyBook).total_words := by
  rw [Snapshot.bookTotal]
  cases s.bookData swn bn <;> simp [emptyBook]

theorem bookCount_eq_getD (s : Snapshot) (swn bn t : String) :
    s.bookCount swn bn t
      = countOf ((s.bookData swn bn).getD emptyBook).word_counts t := by
  rw [Snapshot.bookCount]
  cases s.bookData swn bn <;> simp [emptyBook, countOf, lookupAssoc]

theorem bookLemCount_eq_getD (s : Snapshot) (swn bn t : String) :
    s.bookLemCount swn bn t
      = countOf ((s.bookData swn bn).getD emptyBook).lemmatized_word_counts t := by
  rw [Snapshot.bookLemCount]
  cases s.bookData swn bn <;> simp [emptyBook, countOf, lookupAssoc]

theorem process_verse_total_words_overall (lem : Lemmatizer) (s : Snapshot)
    (v : Verse) :
    (process_verse lem s v).total_words_overall
      = s.total_words_overall + verseNumTokens v := by
  rw [process_verse_eq, verseNumTokens]
  cases hv : verseTokens v with
  | none => simp
  | some triple =>
    obtain ⟨vt, bt, ws⟩ := triple
    simp [addVerse_total_words_overall]

theorem process_verse_swTotal (lem : Lemmatizer) (s : Snapshot) (v : Verse)
    (swn : String) :
    (process_verse lem s v).swTotal swn = s.swTotal swn + swTokensOf v swn := by
  rw [process_verse_eq, swTokensOf]
  cases hv : verseTokens v with
  | none => simp
  | some triple =>
    obtain ⟨vt, bt, ws⟩ := triple
    simp [addVerse_swTotal]

theorem process_verse_bookTotal (lem : Lemmatizer) (s : Snapshot) (v : Verse)
    (swn bn : String) :
    (process_verse lem s v).bookTotal swn bn
      = s.bookTotal swn bn + (bookTokensOf v swn bn).length := by
  rw [process_verse_eq, bookTokensOf]
  cases hv : verseTokens v with
  | none => simp
  | some triple =>
    obtain ⟨vt, bt, ws⟩ := triple
    by_cases hsw : swn = vt
    · subst hsw
      by_cases hb : bn = bt
      · subst hb
        rw [bookTotal_eq_getD, addVerse_bookData_self, bookTotal_eq_getD]
        simp
      · rw [bookTotal_eq_getD, addVerse_bookData_ne_book lem s swn bt ws hb,
          bookTotal_eq_getD]
        simp [Ne.symm hb]
    · rw [bookTotal_eq_getD, addVerse_bookData_ne_sw lem s vt bt ws bn hsw,
        bookTotal_eq_getD]
      simp [Ne.symm hsw]

theorem process_verse_bookCount (lem : Lemmatizer) (s : Snapshot) (v : Verse)
    (swn bn t : String) :
    (process_verse lem s v).bookCount swn bn t
      = s.bookCount swn bn t + (bookTokensOf v swn bn).count t := by
  rw [process_verse_eq, bookTokensOf]
  cases hv : verseTokens v with
  | none => simp
  | some triple =>
    obtain ⟨vt, bt, ws⟩ := triple
    by_cases hsw : swn = vt
    · subst hsw
      by_cases hb : bn = bt
      · subst hb
        rw [bookCount_eq_getD, addVerse_bookData_self, bookCount_eq_getD]
        simp [countOf_counterUpdate]
      · rw [bookCount_eq_getD, addVerse_bookData_ne_book lem s swn bt ws hb,
          bookCount_eq_getD]
        simp [Ne.symm hb]
    · rw [bookCount_eq_getD, addVerse_bookData_ne_sw lem s vt bt ws bn hsw,
        bookCount_eq_getD]
      simp [Ne.symm hsw]

theorem process_verse_bookLemCount (lem : Lemmatizer) (s : Snapshot) (v : Verse)
    (swn bn t : String) :
    (process_verse lem s v).bookLemCount swn bn t
      = s.bookLemCount swn bn t
        + (lemmatize_tokens lem (bookTokensOf v swn bn)).count t := by
  rw [process_verse_eq, bookTokensOf]
  cases hv : verseTokens v with
  | none => cases lem <;> simp [lemmatize_tokens]
  | some triple =>
    obtain ⟨vt, bt, ws⟩ := triple
    by_cases hsw : swn = vt
    · subst hsw
      by_cases hb : bn = bt
      · subst hb
        rw [bookLemCount_eq_getD, addVerse_bookData_self, bookLemCount_eq_getD]
        simp [countOf_counterUpdate]
      · rw [bookLemCount_eq_getD, addVerse_bookData_ne_book lem s swn bt ws hb,
          bookLemCount_eq_getD]
        have : lemmatize_tokens lem [] = [] := by cases lem <;> rfl
        simp [Ne.symm hb, this]
    · rw [bookLemCount_eq_getD, addVerse_bookData_ne_sw lem s vt bt ws bn hsw,
        bookLemCount_eq_getD]
      have : lemmatize_tokens lem [] = [] := by cases lem <;> rfl
      simp [Ne.symm hsw, this]

theorem foldl_total_words_overall (lem : Lemmatizer) (verses : List Verse)
    (s : Snapshot) :
    (verses.foldl (process_verse lem) s).total_words_overall
      = s.total_words_overall + (verses.map verseNumTokens).sum := by
  induction verses generalizing s with
  | nil => simp
  | cons v vs ih =>
    rw [List.foldl_cons, ih, process_verse_total_words_overall]
    simp
    omega

theorem foldl_swTotal (lem : Lemmatizer) (verses : List Verse) (s : Snapshot)
    (swn : String) :
    (verses.foldl (process_verse lem) s).swTotal swn
      = s.swTotal swn + (verses.map (fun v => swTokensOf v swn)).sum := by
  induction verses generalizing s with
  | nil => simp
  | cons v vs ih =>
    rw [List.foldl_cons, ih, process_verse_swTotal]
    simp
    omega

theorem foldl_bookTotal (lem : Lemmatizer) (verses : List Verse) (s : Snapshot)
    (swn bn : String) :
    (verses.foldl (process_verse lem) s).bookTotal swn bn
      = s.bookTotal swn bn + versesBookTokens verses swn bn := by
  induction verses generalizing s with
  | nil => simp [versesBookTokens]
  | cons v vs ih =>
    rw [List.foldl_cons, ih, process_verse_bookTotal]
    simp [versesBookTokens]
    omega

theorem foldl_bookCount (lem : Lemmatizer) (verses : List Verse) (s : Snapshot)
    (swn bn t : String) :
    (verses.foldl (process_verse lem) s).bookCount swn bn t
      = s.bookCount swn bn t + versesBookCount verses swn bn t := by
  induction verses generalizing s with
  | nil => simp [versesBookCount]
  | cons v vs ih =>
    rw [List.foldl_cons, ih, process_verse_bookCount]
    simp [versesBookCount]
    omega

theorem foldl_bookLemCount (lem : Lemmatizer) (verses : List Verse)
    (s : Snapshot) (swn bn t : String) :
    (verses.foldl (process_verse lem) s).bookLemCount swn bn t
      = s.bookLemCount swn bn t + versesBookLemCount lem verses swn bn t := by
  induction verses generalizing s with
  | nil => simp [versesBookLemCount]
  | cons v vs ih =>
    rw [List.foldl_cons, ih, process_verse_bookLemCount]
    simp [versesBookLemCount]
    omega

/-! ## The sum invariants of a snapshot -/

/-- The three-level sum invariant of §3, together with the equality of the
lemmatized value sum: the overall total is the sum of the standard-work
totals, each standard-work total is the sum of its book totals, and each
book total is the value sum of both of its counters. -/
def SnapInv (s : Snapshot) : Prop :=
  s.total_words_overall = s.swTotalSum ∧
  ∀ swn sw, lookupAssoc swn s.standard_works = some sw →
    sw.total_words_in_standard_work = sw.booksTotalSum ∧
    ∀ bn b, lookupAssoc bn sw.books = some b →
      b.total_words = sumValues b.word_counts ∧
      b.total_words = sumValues b.lemmatized_word_counts

theorem snapInv_empty : SnapInv emptySnapshot := by
  constructor
  · rfl
  · intro swn sw h
    simp [emptySnapshot, lookupAssoc] at h

theorem lemmatize_length (lem : Lemmatizer) (ws : List String) :
    (lemmatize_tokens lem ws).length = ws.length := by
  cases lem <;> simp [lemmatize_tokens]

theorem snapInv_addVerse (lem : Lemmatizer) (s : Snapshot) (vt bt : String)
    (ws : List String) (h : SnapInv s) : SnapInv (addVerse lem s vt bt ws) := by
  obtain ⟨h1, h2⟩ := h
  constructor
  · rw [addVerse_total_words_overall, h1, Snapshot.swTotalSum, Snapshot.swTotalSum,
      addVerse]
    exact (map_sum_updateAssoc emptySW _ vt s.standard_works
      (fun sw => sw.total_words_in_standard_work) ws.length
      (fun sw => rfl) rfl).symm
  · intro swn sw hsw
    by_cases hne : swn = vt
    · subst hne
      rw [addVerse] at hsw
      simp only [lookupAssoc_updateAssoc_self] at hsw
      set sw0 := (lookupAssoc swn s.standard_works).getD emptySW with hsw0
      have hsw0inv : sw0.total_words_in_standard_work = sw0.booksTotalSum ∧
          ∀ bn b, lookupAssoc bn sw0.books = some b →
            b.total_words = sumValues b.word_counts ∧
            b.total_words = sumValues b.lemmatized_word_counts := by
        cases hl : lookupAssoc swn s.standard_works with
        | none =>
          rw [hsw0, hl]
          constructor
          · rfl
          · intro bn b hb
            simp [emptySW, lookupAssoc] at hb
        | some sw1 =>
          have := h2 swn sw1 hl
          rw [hsw0, hl]
          exact this
      have he := Option.some.inj hsw
      subst he
      constructor
      · show sw0.total_words_in_standard_work + ws.length = _
        rw [hsw0inv.1, SWData.booksTotalSum, SWData.booksTotalSum]
        exact (map_sum_updateAssoc emptyBook _ bt sw0.books
          (fun b => b.total_words) ws.length (fun b => rfl) rfl).symm
      · intro bn b hb
        by_cases hbn : bn = bt
        · subst hbn
          simp only [lookupAssoc_updateAssoc_self] at hb
          set b0 := (lookupAssoc bn sw0.books).getD emptyBook with hb0
          have hb0inv : b0.total_words = sumValues b0.word_counts ∧
              b0.total_words = sumValues b0.lemmatized_word_counts := by
            cases hl : lookupAssoc bn sw0.books with
            | none =>
              rw [hb0, hl]
              constructor <;> rfl
            | some b1 =>
              have := hsw0inv.2 bn b1 hl
              rw [hb0, hl]
              exact this
          have hbe := Option.some.inj hb
          subst hbe
          constructor
          · show b0.total_words + ws.length = sumValues (counterUpdate b0.word_counts ws)
            rw [sumValues_counterUpdate, hb0inv.1]
          · show b0.total_words + ws.length
              = sumValues (counterUpdate b0.lemmatized_word_counts (lemmatize_tokens lem ws))
            rw [sumValues_counterUpdate, hb0inv.2, lemmatize_length]
        · rw [lookupAssoc_updateAssoc_ne _ _ hbn] at hb
          exact hsw0inv.2 bn b hb
    · rw [addVerse] at hsw
      simp only at hsw
      rw [lookupAssoc_updateAssoc_ne _ _ hne] at hsw
      exact h2 swn sw hsw

theorem snapInv_process_verse (lem : Lemmatizer) (s : Snapshot) (v : Verse)
    (h : SnapInv s) : SnapInv (process_verse lem s v) := by
  rw [process_verse_eq]
  cases verseTokens v with
  | none => exact h
  | some triple =>
    obtain ⟨vt, bt, ws⟩ := triple
    exact snapInv_addVerse lem s vt bt ws h

theorem snapInv_process (lem : Lemmatizer) (verses : List Verse) :
    SnapInv (process_scriptures lem verses) := by
  rw [process_scriptures]
  have : ∀ s : Snapshot, SnapInv s → SnapInv (verses.foldl (process_verse lem) s) := by
    induction verses with
    | nil => intro s hs; exact hs
    | cons v vs ih =>
      intro s hs
      exact ih _ (snapInv_process_verse lem s v hs)
  exact this emptySnapshot snapInv_empty

/-! ## The good-keys invariant of a snapshot -/

/-- Every key of every raw word counter is a nonempty token made only of
lowercase letters and apostrophes. -/
def GoodKeys (s : Snapshot) : Prop :=
  ∀ p ∈ s.standard_works, ∀ q ∈ p.2.books, ∀ r ∈ q.2.word_counts,
    r.1 ≠ "" ∧ ∀ c ∈ r.1.data, isTokenChar c = true

theorem goodKeys_empty : GoodKeys emptySnapshot := by
  intro p hp
  simp [emptySnapshot] at hp

theorem goodKeys_addVerse (lem : Lemmatizer) (s : Snapshot) (vt bt : String)
    (ws : List String)
    (hws : ∀ t ∈ ws, t ≠ "" ∧ ∀ c ∈ t.data, isTokenChar c = true)
    (h : GoodKeys s) : GoodKeys (addVerse lem s vt bt ws) := by
  intro p hp q hq r hr
  rw [addVerse] at hp
  simp only at hp
  rcases mem_updateAssoc hp with hp' | hp'
  · exact h p hp' q hq r hr
  · set sw0 := (lookupAssoc vt s.standard_works).getD emptySW with hsw0
    have hsw0books : ∀ q ∈ sw0.books, ∀ r ∈ q.2.word_counts,
        r.1 ≠ "" ∧ ∀ c ∈ r.1.data, isTokenChar c = true := by
      cases hl : lookupAssoc vt s.standard_works with
      | none =>
        intro q hq
        rw [hsw0, hl] at hq
        simp [emptySW] at hq
      | some sw1 =>
        intro q hq r hr
        have hmem := lookupAssoc_mem hl
        rw [hsw0, hl] at hq
        exact h (vt, sw1) hmem q hq r hr
    rw [hp'] at hq
    simp only at hq
    rcases mem_updateAssoc hq with hq' | hq'
    · exact hsw0books q hq' r hr
    · set b0 := (lookupAssoc bt sw0.books).getD emptyBook with hb0
      have hb0keys : ∀ r ∈ b0.word_counts,
          r.1 ≠ "" ∧ ∀ c ∈ r.1.data, isTokenChar c = true := by
        cases hl : lookupAssoc bt sw0.books with
        | none =>
          intro r hr
          rw [hb0, hl] at hr
          simp [emptyBook] at hr
        | some b1 =>
          intro r hr
          have hmem := lookupAssoc_mem hl
          rw [hb0, hl] at hr
          exact hsw0books (bt, b1) hmem r hr
      rw [hq'] at hr
      simp only at hr
      rcases mem_counterUpdate hr with hr' | hr'
      · exact hb0keys r hr'
      · exact hws r.1 hr'

theorem goodKeys_process (lem : Lemmatizer) (verses : List Verse) :
    GoodKeys (process_scriptures lem verses) := by
  rw [process_scriptures]
  have step : ∀ (s : Snapshot) (v : Verse), GoodKeys s →
      GoodKeys (process_verse lem s v) := by
    intro s v hs
    rw [process_verse_eq]
    cases hv : verseTokens v with
    | none => exact hs
    | some triple =>
      obtain ⟨vt, bt, ws⟩ := triple
      refine goodKeys_addVerse lem s vt bt ws ?_ hs
      have : ws = clean_and_tokenize_text ((v.scripture_text).getD "") ∨
          (∀ t ∈ ws, t ≠ "" ∧ ∀ c ∈ t.data, isTokenChar c = true) := by
        rcases v with ⟨ovt, obt, otxt⟩
        cases ovt <;> cases obt <;> cases otxt <;>
          simp [verseTokens] at hv
        rcases hv with ⟨h1, h2, h3⟩
        left
        rw [← h3.2.2]
        rfl
      rcases this with h | h
      · rw [h]
        exact clean_tokens_good _
      · exact h
  have : ∀ s : Snapshot, GoodKeys s → GoodKeys (verses.foldl (process_verse lem) s) := by
    induction verses with
    | nil => intro s hs; exact hs
    | cons v vs ih =>
      intro s hs
      exact ih _ (step s v hs)
  exact this emptySnapshot goodKeys_empty

/-! ## Miscellaneous helper lemmas -/

theorem verseTokens_eq_none_of_skipped {v : Verse}
    (h : isSkippedVerse v = true) : verseTokens v = none := by
  rcases v with ⟨ovt, obt, otxt⟩
  cases ovt with
  | none => rfl
  | some vt =>
    cases obt with
    | none => rfl
    | some bt =>
      cases otxt with
      | none => rfl
      | some txt =>
        rw [isSkippedVerse] at h
        rw [verseTokens]
        by_cases h1 : (vt = "" || bt = "" || txt = "") = true
        · simp only [h1, if_true]
        · simp only [h1, Bool.false_eq_true, if_false] at h ⊢
          rw [Bool.false_or] at h
          simp only [h, if_true]

theorem toLower_of_isWhitespace {c : Char} (h : c.isWhitespace = true) :
    Char.toLower c = c := by
  rw [Char.isWhitespace] at h
  simp only [Bool.or_eq_true, decide_eq_true_eq] at h
  rcases h with ((rfl | rfl) | rfl) | rfl <;> decide

theorem pyStrip_pyLower_of_blank {term : String}
    (h : term.data.all Char.isWhitespace = true) :
    pyStrip (pyLower term) = "" := by
  have hlow : ∀ c ∈ (pyLower term).data, c.isWhitespace = true := by
    intro c hc
    rw [pyLower] at hc
    simp only [List.mem_map] at hc
    obtain ⟨c', hc', rfl⟩ := hc
    have hws := List.all_eq_true.mp h c' hc'
    rw [toLower_of_isWhitespace hws]
    exact hws
  rw [pyStrip]
  rw [List.dropWhile_eq_nil_iff.mpr hlow]
  rfl

/-! ## Demonstration fixtures used by the witnesses -/

/-- A small accepted verse. -/
def verseAlma : Verse :=
  ⟨some "Book of Mormon", some "Alma", some "faith and faith"⟩

/-- A second accepted verse in another standard work. -/
def verseJohn : Verse :=
  ⟨some "New Testament", some "John", some "hope"⟩

/-- A verse naming a volume outside the allow-list. -/
def verseApocrypha : Verse :=
  ⟨some "Apocrypha", some "Tobit", some "In those days"⟩

/-- The book aggregate that `verseAlma` alone produces. -/
def demoBook : BookData :=
  { word_counts := [("faith", 2), ("and", 1)]
    lemmatized_word_counts := [("faith", 2), ("and", 1)]
    total_words := 3 }

/-- The standard-work aggregate that `verseAlma` alone produces. -/
def demoSW : SWData :=
  { books := [("Alma", demoBook)], total_words_in_standard_work := 3 }

/-- The snapshot of the one-verse corpus `[verseAlma]`. -/
def demoSnapshot : Snapshot :=
  process_scriptures Lemmatizer.unavailable [verseAlma]

/-! ## The claims -/

/-- C2: for every input string, `clean_and_tokenize_text` lowercases the
string, removes every character that is not a lowercase letter, whitespace,
or apostrophe, and splits on whitespace runs (stated as agreement with the
independently phrased spec algorithm `spec_tokenize`); the empty string
yields the empty sequence; and tokenizing the spec's example sentence
yields the expected five tokens. The function is a total Lean function on
strings, so it is pure and total with no error condition. -/
theorem C2_tokenizer_contract (text : String) :
    clean_and_tokenize_text text = spec_tokenize text ∧
    clean_and_tokenize_text "" = [] ∧
    clean_and_tokenize_text "Faith, HOPE; and Charity's love."
      = ["faith", "hope", "and", "charity's", "love"] :=
  ⟨clean_and_tokenize_eq_spec text, rfl, by decide⟩

/-- C7: `lemmatize_tokens` returns a sequence of the same length and order
as its input — position `i` of the output is the normalization of position
`i` of the input, stated as a `List.map` of the per-token normalization —
and when the service is unavailable or fails on the batch it returns the
input tokens unchanged; hence the number of normalized tokens always
equals the number of raw tokens. -/
theorem C7_lemmatize_contract (lem : Lemmatizer) (tokens : List String) :
    (lemmatize_tokens lem tokens).length = tokens.length ∧
    lemmatize_tokens lem tokens = tokens.map (applyLemmatizer lem) ∧
    ((lem = Lemmatizer.unavailable ∨ lem = Lemmatizer.failing) →
      lemmatize_tokens lem tokens = tokens) := by
  refine ⟨lemmatize_length lem tokens, ?_, ?_⟩
  · cases lem with
    | available f => simp [lemmatize_tokens, applyLemmatizer]
    | unavailable => exact (List.map_id'' (fun t => rfl) tokens).symm
    | failing => exact (List.map_id'' (fun t => rfl) tokens).symm
  · intro h
    rcases h with h | h <;> subst h <;> rfl

/-- Witness for C7 at a concrete lemmatizer state and token list. -/
theorem C7_lemmatize_contract_witness :
    (Lemmatizer.unavailable = Lemmatizer.unavailable ∨
      Lemmatizer.unavailable = Lemmatizer.failing) ∧
    lemmatize_tokens Lemmatizer.unavailable ["faith", "hope"] = ["faith", "hope"] :=
  ⟨Or.inl rfl,
    (C7_lemmatize_contract Lemmatizer.unavailable ["faith", "hope"]).2.2 (Or.inl rfl)⟩

/-- C5: a verse with a missing or empty standard-work, book, or text field,
or whose standard-work name is outside the five-name allow-list, is
skipped: processing it leaves the snapshot unchanged, so deleting it from
any position of the verse sequence leaves the entire resulting snapshot
(every counter and total) unchanged. -/
theorem C5_skipped_verse_contributes_nothing (lem : Lemmatizer) (v : Verse)
    (h : isSkippedVerse v = true) :
    (∀ s, process_verse lem s v = s) ∧
    ∀ pre post : List Verse,
      process_scriptures lem (pre ++ v :: post)
        = process_scriptures lem (pre ++ post) := by
  have hid : ∀ s, process_verse lem s v = s := by
    intro s
    rw [process_verse_eq, verseTokens_eq_none_of_skipped h]
  refine ⟨hid, ?_⟩
  intro pre post
  rw [process_scriptures, process_scriptures, List.foldl_append,
    List.foldl_append, List.foldl_cons, hid]

/-- Witness for C5: the Apocrypha verse of the spec's example, spliced into
a one-verse corpus, changes nothing. -/
theorem C5_skipped_verse_contributes_nothing_witness :
    isSkippedVerse verseApocrypha = true ∧
    process_scriptures Lemmatizer.unavailable ([verseAlma] ++ verseApocrypha :: [])
      = process_scriptures Lemmatizer.unavailable ([verseAlma] ++ []) :=
  ⟨by decide,
    (C5_skipped_verse_contributes_nothing Lemmatizer.unavailable verseApocrypha
      (by decide)).2 [verseAlma] []⟩

/-- C6: querying a term that is empty or consists only of whitespace
returns the empty result sequence, for every snapshot and every
granularity; being a total Lean function, the query raises no error. -/
theorem C6_blank_term_empty_results (s : Snapshot) (granularity term : String)
    (h : term.data.all Char.isWhitespace = true) :
    get_search_results term s granularity = [] := by
  rw [get_search_results]
  simp only [pyStrip_pyLower_of_blank h, if_true]

/-- Witness for C6 at a whitespace-only term. -/
theorem C6_blank_term_empty_results_witness :
    ("  ".data.all Char.isWhitespace = true) ∧
    get_search_results "  " demoSnapshot "By Standard Work" = [] :=
  ⟨by decide,
    C6_blank_term_empty_results demoSnapshot "By Standard Work" "  " (by decide)⟩

/-- C8: two search terms that agree after lowercasing and trimming
surrounding whitespace produce identical result sequences, for every
snapshot and every granularity; in particular querying `" Faith "` and
`"faith"` produce identical results (see the witness). -/
theorem C8_case_whitespace_insensitive (s : Snapshot) (granularity t1 t2 : String)
    (h : pyStrip (pyLower t1) = pyStrip (pyLower t2)) :
    get_search_results t1 s granularity = get_search_results t2 s granularity := by
  rw [get_search_results, get_search_results, h]

/-- Witness for C8: the spec's example pair of terms on the demo snapshot. -/
theorem C8_case_whitespace_insensitive_witness :
    pyStrip (pyLower " Faith ") = pyStrip (pyLower "faith") ∧
    get_search_results " Faith " demoSnapshot "All Standard Works Combined"
      = get_search_results "faith" demoSnapshot "All Standard Works Combined" :=
  ⟨by decide,
    C8_case_whitespace_insensitive demoSnapshot "All Standard Works Combined"
      " Faith " "faith" (by decide)⟩

/-- C1: for every snapshot the aggregator produces, the overall total is
the sum of the standard-work totals, every standard-work total is the sum
of its book totals, and every book total equals both the value sum of its
raw word counter and the number of raw tokens produced for that book's
verses. -/
theorem C1_sum_invariants (lem : Lemmatizer) (verses : List Verse) :
    (process_scriptures lem verses).total_words_overall
        = (process_scriptures lem verses).swTotalSum ∧
    (∀ swn sw,
      lookupAssoc swn (process_scriptures lem verses).standard_works = some sw →
      sw.total_words_in_standard_work = sw.booksTotalSum) ∧
    (∀ swn sw bn b,
      lookupAssoc swn (process_scriptures lem verses).standard_works = some sw →
      lookupAssoc bn sw.books = some b →
      b.total_words = sumValues b.word_counts ∧
      b.total_words = versesBookTokens verses swn bn) := by
  obtain ⟨h1, h2⟩ := snapInv_process lem verses
  refine ⟨h1, fun swn sw hsw => (h2 swn sw hsw).1, ?_⟩
  intro swn sw bn b hsw hb
  refine ⟨((h2 swn sw hsw).2 bn b hb).1, ?_⟩
  have hbt : (process_scriptures lem verses).bookTotal swn bn = b.total_words := by
    rw [Snapshot.bookTotal, Snapshot.bookData, hsw]
    simp [Option.bind, hb]
  have hfold := foldl_bookTotal lem verses emptySnapshot swn bn
  rw [← process_scriptures] at hfold
  have h0 : emptySnapshot.bookTotal swn bn = 0 := rfl
  rw [h0, Nat.zero_add] at hfold
  rw [← hbt, hfold]

/-- Witness for C1 at the one-verse demo corpus and its Alma bucket. -/
theorem C1_sum_invariants_witness :
    demoBook.total_words = sumValues demoBook.word_counts ∧
    demoBook.total_words = versesBookTokens [verseAlma] "Book of Mormon" "Alma" :=
  (C1_sum_invariants Lemmatizer.unavailable [verseAlma]).2.2
    "Book of Mormon" demoSW "Alma" demoBook (by decide) (by decide)

/-- C10: in every snapshot the aggregator produces, each book's lemmatized
counter has the same value sum as its raw counter, and both equal the
book's `total_words`, because each verse contributes exactly as many
lemmatized tokens as raw tokens. -/
theorem C10_lemmatized_sum_invariant (lem : Lemmatizer) (verses : List Verse)
    (swn : String) (sw : SWData) (bn : String) (b : BookData)
    (hsw : lookupAssoc swn (process_scriptures lem verses).standard_works = some sw)
    (hb : lookupAssoc bn sw.books = some b) :
    sumValues b.lemmatized_word_counts = sumValues b.word_counts ∧
    sumValues b.word_counts = b.total_words := by
  obtain ⟨h1, h2⟩ := snapInv_process lem verses
  have h := (h2 swn sw hsw).2 bn b hb
  exact ⟨by rw [← h.1, ← h.2], h.1.symm⟩

/-- Witness for C10 at the one-verse demo corpus and its Alma bucket. -/
theorem C10_lemmatized_sum_invariant_witness :
    sumValues demoBook.lemmatized_word_counts = sumValues demoBook.word_counts ∧
    sumValues demoBook.word_counts = demoBook.total_words :=
  C10_lemmatized_sum_invariant Lemmatizer.unavailable [verseAlma]
    "Book of Mormon" demoSW "Alma" demoBook (by decide) (by decide)

/-- C3: aggregation is order-independent — for every permutation of the
verse sequence, the resulting snapshots agree on every count and every
total: the overall total, every standard-work total, every book total, and
every token's raw and lemmatized count in every book. -/
theorem C3_order_independence (lem : Lemmatizer) (verses verses' : List Verse)
    (h : verses.Perm verses') :
    (process_scriptures lem verses).total_words_overall
        = (process_scriptures lem verses').total_words_overall ∧
    (∀ swn, (process_scriptures lem verses).swTotal swn
        = (process_scriptures lem verses').swTotal swn) ∧
    (∀ swn bn, (process_scriptures lem verses).bookTotal swn bn
        = (process_scriptures lem verses').bookTotal swn bn) ∧
    (∀ swn bn t,
      (process_scriptures lem verses).bookCount swn bn t
          = (process_scriptures lem verses').bookCount swn bn t ∧
      (process_scriptures lem verses).bookLemCount swn bn t
          = (process_scriptures lem verses').bookLemCount swn bn t) := by
  refine ⟨?_, fun swn => ?_, fun swn bn => ?_, fun swn bn t => ⟨?_, ?_⟩⟩
  · rw [process_scriptures, process_scriptures, foldl_total_words_overall,
      foldl_total_words_overall]
    exact congrArg _ ((h.map verseNumTokens).sum_eq)
  · rw [process_scriptures, process_scriptures, foldl_swTotal, foldl_swTotal]
    exact congrArg _ ((h.map fun v => swTokensOf v swn).sum_eq)
  · rw [process_scriptures, process_scriptures, foldl_bookTotal, foldl_bookTotal,
      versesBookTokens, versesBookTokens]
    exact congrArg _ ((h.map fun v => (bookTokensOf v swn bn).length).sum_eq)
  · rw [process_scriptures, process_scriptures, foldl_bookCount, foldl_bookCount,
      versesBookCount, versesBookCount]
    exact congrArg _ ((h.map fun v => (bookTokensOf v swn bn).count t).sum_eq)
  · rw [process_scriptures, process_scriptures, foldl_bookLemCount,
      foldl_bookLemCount, versesBookLemCount, versesBookLemCount]
    exact congrArg _
      ((h.map fun v => (lemmatize_tokens lem (bookTokensOf v swn bn)).count t).sum_eq)

/-- Witness for C3: swapping a two-verse corpus preserves the overall
total. -/
theorem C3_order_independence_witness :
    (process_scriptures Lemmatizer.unavailable [verseAlma, verseJohn]).total_words_overall
      = (process_scriptures Lemmatizer.unavailable [verseJohn, verseAlma]).total_words_overall :=
  (C3_order_independence Lemmatizer.unavailable [verseAlma, verseJohn]
    [verseJohn, verseAlma] (List.Perm.swap verseJohn verseAlma [])).1

/-- In a snapshot whose raw counter keys are all clean tokens, a term
containing any character other than a lowercase letter or apostrophe has
count zero in every book's raw counter. -/
theorem countOf_bad_term {s : Snapshot} (hg : GoodKeys s) {term : String}
    (hbad : term.data.all isTokenChar = false) :
    ∀ p ∈ s.standard_works, ∀ q ∈ p.2.books,
      countOf q.2.word_counts term = 0 := by
  intro p hp q hq
  cases hl : lookupAssoc term q.2.word_counts with
  | none => simp [countOf, hl]
  | some n =>
    have hmem := lookupAssoc_mem hl
    have hgood := hg p hp q hq (term, n) hmem
    have : term.data.all isTokenChar = true :=
      List.all_eq_true.mpr (fun c hc => hgood.2 c hc)
    rw [this] at hbad
    cases hbad

/-- Every result row's raw count is the combined nested sum, a
per-standard-work sum, or a direct per-book lookup, of the cleaned term's
count in the snapshot's raw counters. -/
theorem row_rawCount_shape (term : String) (s : Snapshot) (granularity : String)
    (row : ResultRow) (hrow : row ∈ get_search_results term s granularity) :
    (row.rawCount
        = (s.standard_works.map fun sw =>
            (sw.2.books.map fun b =>
              countOf b.2.word_counts (pyStrip (pyLower term))).sum).sum) ∨
    (∃ p ∈ s.standard_works,
      row.rawCount = (p.2.books.map fun b =>
        countOf b.2.word_counts (pyStrip (pyLower term))).sum) ∨
    (∃ p ∈ s.standard_works, ∃ q ∈ p.2.books,
      row.rawCount = countOf q.2.word_counts (pyStrip (pyLower term))) := by
  rw [get_search_results] at hrow
  by_cases h0 : pyStrip (pyLower term) = ""
  · simp [h0] at hrow
  · simp only [h0, Bool.false_eq_true, if_false, if_neg h0] at hrow
    by_cases g1 : granularity = "All Standard Works Combined"
    · simp only [g1, if_true, List.mem_singleton] at hrow
      subst hrow
      left
      rfl
    · simp only [g1, Bool.false_eq_true, if_false, if_neg g1] at hrow
      by_cases g2 : granularity = "By Standard Work"
      · simp only [g2, if_true, List.mem_map] at hrow
        obtain ⟨p, hp, rfl⟩ := hrow
        right
        left
        exact ⟨p, hp, rfl⟩
      · simp only [g2, Bool.false_eq_true, if_false, if_neg g2] at hrow
        by_cases g3 : granularity = "By Book (within each Standard Work)"
        · simp only [g3, if_true, List.mem_flatten, List.mem_map] at hrow
          obtain ⟨l, ⟨p, hp, rfl⟩, hrl⟩ := hrow
          obtain ⟨q, hq, rfl⟩ := List.mem_map.mp hrl
          right
          right
          exact ⟨p, hp, q, hq, rfl⟩
        · simp only [g3, Bool.false_eq_true, if_false, if_neg g3] at hrow
          simp at hrow

/-- C9: query-time term normalization only lowercases and trims, while
every key of every produced raw word counter is a nonempty token made only
of lowercase letters and apostrophes; hence a term whose cleaned form
contains any other character (a phrase with an inner space, a punctuated
term, ...) has raw count 0 in every row of every granularity, for every
snapshot the aggregator produces. -/
theorem C9_bad_terms_count_zero (lem : Lemmatizer) (verses : List Verse)
    (term granularity : String)
    (hbad : (pyStrip (pyLower term)).data.all isTokenChar = false) :
    (∀ p ∈ (process_scriptures lem verses).standard_works,
      ∀ q ∈ p.2.books, ∀ r ∈ q.2.word_counts,
        r.1 ≠ "" ∧ ∀ c ∈ r.1.data, isTokenChar c = true) ∧
    ∀ row ∈ get_search_results term (process_scriptures lem verses) granularity,
      row.rawCount = 0 := by
  have hg := goodKeys_process lem verses
  refine ⟨hg, ?_⟩
  intro row hrow
  have hzero := countOf_bad_term hg hbad
  rcases row_rawCount_shape term (process_scriptures lem verses) granularity row
      hrow with h | h | h
  · rw [h]
    refine List.sum_eq_zero ?_
    intro x hx
    obtain ⟨p, hp, rfl⟩ := List.mem_map.mp hx
    refine List.sum_eq_zero ?_
    intro y hy
    obtain ⟨q, hq, rfl⟩ := List.mem_map.mp hy
    exact hzero p hp q hq
  · obtain ⟨p, hp, h⟩ := h
    rw [h]
    refine List.sum_eq_zero ?_
    intro y hy
    obtain ⟨q, hq, rfl⟩ := List.mem_map.mp hy
    exact hzero p hp q hq
  · obtain ⟨p, hp, q, hq, h⟩ := h
    rw [h]
    exact hzero p hp q hq

/-- Witness for C9: the punctuated term sees a zero raw count on the demo
snapshot's combined row. -/
theorem C9_bad_terms_count_zero_witness :
    ("faith!".data.all isTokenChar = false) ∧
    (get_search_results "faith!" demoSnapshot "All Standard Works Combined").map
      (fun r => r.rawCount) = [0] := by
  refine ⟨by decide, ?_⟩
  have h := (C9_bad_terms_count_zero Lemmatizer.unavailable [verseAlma] "faith!"
      "All Standard Works Combined" (by decide)).2
  have hlen : (get_search_results "faith!" demoSnapshot
      "All Standard Works Combined").length = 1 := by decide
  cases hl : get_search_results "faith!" demoSnapshot "All Standard Works Combined" with
  | nil =>
    rw [hl] at hlen
    cases hlen
  | cons r rest =>
    cases rest with
    | cons r2 rest2 =>
      rw [hl] at hlen
      simp at hlen
    | nil =>
      have hr : r.rawCount = 0 := h r (by
        rw [show process_scriptures Lemmatizer.unavailable [verseAlma] = demoSnapshot
          from rfl, hl]
        exact List.mem_singleton_self r)
      rw [List.map_cons, List.map_nil, hr]

/-- Counterexample to C4 as stated: for the empty search term the Combined
query returns zero rows, not exactly one, so the claim's universal
quantification over every search term fails. -/
theorem C4_counterexample_empty_term :
    ¬ (get_search_results "" emptySnapshot "All Standard Works Combined").length
        = 1 := by
  decide

/-- C4 (amended): for every snapshot and every search term whose
lowercased, trimmed form is nonempty, the Combined query returns exactly
one row; its raw count is the sum of the PerBook raw counts for the same
term over all books, and its normalized rate is
`rawCount / totalWordsOverall * 10000` when `totalWordsOverall > 0` and
`0` when it is `0`. -/
theorem C4_combined_query (s : Snapshot) (term : String)
    (h : pyStrip (pyLower term) ≠ "") :
    ∃ row,
      get_search_results term s "All Standard Works Combined" = [row] ∧
      row.rawCount
        = ((get_search_results term s "By Book (within each Standard Work)").map
            (fun r => r.rawCount)).sum ∧
      row.per10000
        = (if 0 < s.total_words_overall then
            ((row.rawCount : ℚ) / (s.total_words_overall : ℚ)) * 10000
          else 0) := by
  refine ⟨{ scope := some "All Standard Works"
            standardWork := none
            book := none
            searchTerm := pyStrip (pyLower term)
            rawCount := (s.standard_works.map fun sw =>
              (sw.2.books.map fun b =>
                countOf b.2.word_counts (pyStrip (pyLower term))).sum).sum
            per10000 :=
              if 0 < s.total_words_overall then
                ((((s.standard_works.map fun sw =>
                    (sw.2.books.map fun b =>
                      countOf b.2.word_counts (pyStrip (pyLower term))).sum).sum : Nat) : ℚ)
                  / (s.total_words_overall : ℚ)) * 10000
              else 0
            totalWordsInScope := s.total_words_overall }, ?_, ?_, rfl⟩
  · simp only [get_search_results]
    rw [if_neg h, if_pos trivial]
  · show (s.standard_works.map fun sw =>
        (sw.2.books.map fun b =>
          countOf b.2.word_counts (pyStrip (pyLower term))).sum).sum = _
    simp only [get_search_results]
    rw [if_neg h, if_neg (by decide : ¬("By Book (within each Standard Work)"
        = "All Standard Works Combined")),
      if_neg (by decide : ¬("By Book (within each Standard Work)"
        = "By Standard Work")), if_pos trivial]
    rw [List.map_flatten, List.sum_flatten, List.map_map, List.map_map]
    congr 1
    refine List.map_congr_left ?_
    intro sw hsw
    simp [Function.comp_def]

/-- Witness for C4 at a nonempty term on the demo snapshot. -/
theorem C4_combined_query_witness :
    pyStrip (pyLower "faith") ≠ "" ∧
    (get_search_results "faith" demoSnapshot "All Standard Works Combined").length
      = 1 := by
  refine ⟨by decide, ?_⟩
  obtain ⟨row, hrow, -, -⟩ := C4_combined_query demoSnapshot "faith" (by decide)
  rw [hrow]
  rfl

end StandardWorks
